import Mathlib

/-!
Verification of the hecs derive-macro crate (`src/macros/src/lib.rs`).

The crate generates, for a `#[derive(Bundle)]` struct, an `elements()`
signature computation (duplicate detection followed by a sort by decreasing
alignment with ascending `TypeId` tie-break), a `get_archetype`
(lookup-or-allocate) and a `store` (per-field column writes); and, for a
`#[derive(Query)]` struct, a composite fetch with `get`/`next` and
`borrow`/`release` that fold the per-field operations in declared order.

We shallowly embed the *generated* code over an abstract model of component
types: a component type is represented by its `TypeId` (a `Nat`, globally
unique per type), its alignment, and its display name.
-/

namespace Hecs

/-- Model of what `TypeId::of::<T>()`, `mem::align_of::<T>()` and
`std::any::type_name::<T>()` provide for a component type `T`:
a globally unique, orderable identity, an alignment, and a name. -/
structure TypeDescriptor where
  id : Nat
  align : Nat
  name : String
deriving DecidableEq, Repr

/-- The key the generated `elements()` sorts: the code builds the array
`[(mem::align_of::<T>(), TypeId::of::<T>()), ...]` (line 64). -/
def bundleKey (t : TypeDescriptor) : Nat × Nat :=
  (t.align, t.id)

/-- The comparator of line 65:
`x.0.cmp(&y.0).reverse().then(x.1.cmp(&y.1))`, i.e. alignment decreasing,
then `TypeId` ascending.  `keyLE x y` holds when `x` sorts no later than
`y`. -/
def keyLE (x y : Nat × Nat) : Prop :=
  y.1 < x.1 ∨ (x.1 = y.1 ∧ x.2 ≤ y.2)

instance : DecidableRel keyLE := fun x y => by
  unfold keyLE; infer_instance

instance : IsTotal (Nat × Nat) keyLE where
  total x y := by
    rcases Nat.lt_trichotomy x.1 y.1 with h | h | h
    · exact Or.inr (Or.inl h)
    · rcases Nat.le_total x.2 y.2 with h2 | h2
      · exact Or.inl (Or.inr ⟨h, h2⟩)
      · exact Or.inr (Or.inr ⟨h.symm, h2⟩)
    · exact Or.inl (Or.inl h)

instance : IsTrans (Nat × Nat) keyLE where
  trans x y z hxy hyz := by
    rcases hxy with h1 | ⟨e1, l1⟩
    · rcases hyz with h2 | ⟨e2, _⟩
      · exact Or.inl (h2.trans h1)
      · exact Or.inl (e2 ▸ h1)
    · rcases hyz with h2 | ⟨e2, l2⟩
      · exact Or.inl (e1 ▸ h2)
      · exact Or.inr ⟨e1.trans e2, l1.trans l2⟩

instance : IsAntisymm (Nat × Nat) keyLE where
  antisymm x y hxy hyx := by
    rcases hxy with h1 | ⟨e1, l1⟩
    · rcases hyx with h2 | ⟨e2, _⟩
      · exact absurd (h1.trans h2) (lt_irrefl _)
      · exact absurd (e2 ▸ h1) (lt_irrefl _)
    · rcases hyx with h2 | ⟨_, l2⟩
      · exact absurd (e1 ▸ h2) (lt_irrefl _)
      · exact Prod.ext e1 (Nat.le_antisymm l1 l2)

/-- The duplicate scan of lines 57–62: iterate over the declared fields in
order, inserting each `TypeId` into a set; return the first field whose
`TypeId` was already present, if any.  `seen` is the set accumulated so
far. -/
def findDup (seen : List Nat) : List TypeDescriptor → Option TypeDescriptor
  | [] => none
  | t :: rest => if t.id ∈ seen then some t else findDup (t.id :: seen) rest

/-- The panic message of line 60: `"{} has multiple {} fields; each type
must occur at most once!"` with the bundle ident and the duplicated type's
name. -/
def dupMessage (bundle tyName : String) : String :=
  bundle ++ " has multiple " ++ tyName ++ " fields; each type must occur at most once!"

/-- The sorted identity sequence produced on lines 64–70: sort the
`(align, TypeId)` pairs by `keyLE` and project out the identities. -/
def canonicalize (tys : List TypeDescriptor) : List Nat :=
  ((tys.map bundleKey).insertionSort keyLE).map Prod.snd

/-- The generated `Bundle::elements()` body (lines 56–71) for a bundle
named `bundle` with declared field types `tys`, with the panic of the
duplicate check made explicit as an `Except.error`. -/
def elements (bundle : String) (tys : List TypeDescriptor) :
    Except String (List Nat) :=
  match findDup [] tys with
  | some t => .error (dupMessage bundle t.name)
  | none => .ok (canonicalize tys)

/-- The generated composite `Fetch::get` (lines 170–176): the expansion is
`Some(Self { field_i: <T_i as Query>::Fetch::get(archetype)?, ... })`,
attempting each field's sub-fetch in declared order; the `?` operator
short-circuits on the first `None`.  Each sub-fetch is abstract: a function
from the archetype to an optional per-field fetch state. -/
def compositeGet {A S : Type} (subs : List (A → Option S)) (a : A) :
    Option (List S) :=
  match subs with
  | [] => some []
  | f :: rest =>
    match f a with
    | none => none
    | some s =>
      match compositeGet rest a with
      | none => none
      | some ss => some (s :: ss)

/-- Modelled from the spec: the per-field sub-fetch state of the external
hecs library (not under `src/`).  Per §4.5/§6, a sub-fetch streams one item
per `next` call with no bounds check; we model it as a cursor into an
infinite stream of items. -/
structure SubFetch (I : Type) where
  stream : Nat → I
  pos : Nat

/-- Modelled from the spec: advancing one sub-fetch returns the item at the
cursor and moves the cursor forward by one. -/
def SubFetch.next {I : Type} (f : SubFetch I) : I × SubFetch I :=
  (f.stream f.pos, ⟨f.stream, f.pos + 1⟩)

/-- The generated composite `Fetch::next` (lines 178–184): the expansion is
`#ident { field_i: self.field_i.next(), ... }` — assemble the item field by
field, advancing each sub-fetch exactly once, with no bounds check of its
own. -/
def compositeNext {I : Type} (ss : List (SubFetch I)) :
    List I × List (SubFetch I) :=
  match ss with
  | [] => ([], [])
  | s :: rest =>
    let (i, s') := s.next
    let (is, rest') := compositeNext rest
    (i :: is, s' :: rest')

/-- Access mode declared by a query field (`&T`, `&mut T`, `Option<&T>`,
`Option<&mut T>`). -/
inductive AccessMode
  | shared
  | exclusive
  | optShared
  | optExclusive
deriving DecidableEq, Repr

/-- One declared field of a `#[derive(Query)]` struct: the component type's
identity and the declared access mode. -/
structure QueryField where
  ty : Nat
  mode : AccessMode
deriving DecidableEq, Repr

/-- A call into the external Borrow Coordinator, recorded as a trace event:
the per-type `<T as Query>::borrow(state)` / `release(state)` invocations
of the generated code, carrying the field's type identity and declared
access mode. -/
inductive BorrowOp
  | acquire (ty : Nat) (mode : AccessMode)
  | release (ty : Nat) (mode : AccessMode)
deriving DecidableEq, Repr

/-- The component type and mode an operation is about. -/
def BorrowOp.field : BorrowOp → Nat × AccessMode
  | .acquire ty m => (ty, m)
  | .release ty m => (ty, m)

/-- The generated `Query::borrow` (lines 190–194): the expansion is the
statement sequence `<T_i as Query>::borrow(state);` for each field in
declared order; each per-type call is recorded as one trace event. -/
def compositeBorrow : List QueryField → List BorrowOp
  | [] => []
  | f :: rest => BorrowOp.acquire f.ty f.mode :: compositeBorrow rest

/-- The generated `Query::release` (lines 196–200): the expansion is the
statement sequence `<T_i as Query>::release(state);` for each field in the
same declared order as `borrow`. -/
def compositeRelease : List QueryField → List BorrowOp
  | [] => []
  | f :: rest => BorrowOp.release f.ty f.mode :: compositeRelease rest

/-- Modelled from the spec: the external archetype table interface consumed
by the generated `get_archetype` (spec §4.3 / §6:
`lookup(signature) -> optional id`, `allocate(descriptors) -> id`).
`lookup` is an arbitrary function from signatures to optional ids; `alloc`
returns a fresh id and records the descriptor list it was handed. -/
structure ArchetypeTable where
  lookup : List Nat → Option Nat
  nextId : Nat
  allocLog : List (List TypeDescriptor)

/-- Modelled from the spec: allocation hands the table a descriptor list
and yields a fresh archetype id; the log records every allocation. -/
def ArchetypeTable.alloc (t : ArchetypeTable) (info : List TypeDescriptor) :
    Nat × ArchetypeTable :=
  (t.nextId,
   { lookup := t.lookup, nextId := t.nextId + 1,
     allocLog := t.allocLog ++ [info] })

/-- The ordering used by `info.sort_unstable()` on line 82.  The `Ord`
instance of `hecs::TypeInfo` lives in the main crate, outside `src/`; it
orders descriptors the same way as the signature sort (alignment
decreasing, identity ascending), and no claim depends on which total order
is used. -/
def infoLE (x y : TypeDescriptor) : Prop :=
  keyLE (bundleKey x) (bundleKey y)

instance : DecidableRel infoLE := fun x y => by
  unfold infoLE; infer_instance

/-- The generated `DynamicBundle::get_archetype` (lines 77–85): compute the
signature, try `table.get_id`, and only on a miss build the sorted
`TypeInfo` vector of all declared fields and call `table.alloc`. -/
def get_archetype (bundle : String) (tys : List TypeDescriptor)
    (t : ArchetypeTable) : Except String (Nat × ArchetypeTable) := do
  let sig ← elements bundle tys
  match t.lookup sig with
  | some id => .ok (id, t)
  | none => .ok (t.alloc (tys.insertionSort infoLE))

/-- Modelled from the spec: component column storage of an archetype
(spec §4.4): a map from component type identity and slot index to an
optionally initialized value.  Columns of distinct types are disjoint by
construction. -/
def Storage (V : Type) : Type := Nat → Nat → Option V

/-- Modelled from the spec: `Archetype::put` writes one component value
into the column of its type at the given slot index. -/
def put {V : Type} (s : Storage V) (ty : Nat) (v : V) (index : Nat) :
    Storage V :=
  fun u j => if u = ty ∧ j = index then some v else s u j

/-- The generated `DynamicBundle::store` (lines 87–91): the expansion is
the statement sequence `archetype.put(self.field_i, index);` for each
declared field in order.  A field is its component type identity paired
with the value stored in it. -/
def store {V : Type} (fields : List (Nat × V)) (arch : Storage V)
    (index : Nat) : Storage V :=
  match fields with
  | [] => arch
  | f :: rest => store rest (put arch f.1 f.2 index) index

/-- Modelled from the spec: the state of the `once_cell::sync::Lazy` static
`ELEMENTS` of line 56 (the cell type is external to `src/`): the cached
signature, if already computed, together with a count of how many times the
initializer has run. -/
structure LazyState where
  cached : Option (List Nat)
  initCount : Nat
deriving DecidableEq, Repr

/-- The lazy static before any call: empty cell, initializer never run. -/
def freshLazy : LazyState := ⟨none, 0⟩

/-- One call of the generated `elements()` (lines 50–73) against the lazy
static: a cached signature is returned without recomputation; otherwise the
initializer (duplicate check and sort) runs once, caching its result on
success. -/
def elementsCall (bundle : String) (tys : List TypeDescriptor)
    (st : LazyState) : Except String (List Nat) × LazyState :=
  match st.cached with
  | some s => (.ok s, st)
  | none =>
    match elements bundle tys with
    | .ok s => (.ok s, ⟨some s, st.initCount + 1⟩)
    | .error e => (.error e, ⟨none, st.initCount + 1⟩)

/-- The kind of item a derive macro was applied to (`syn::Data`). -/
inductive DataKind
  | structData
  | enumData
  | unionData
deriving DecidableEq, Repr

/-- Model of the shape of a `syn::DeriveInput` as inspected by the two
macros: the number of lifetime parameters, the number of other (type or
const) generic parameters, whether a `where` clause is present, and the
data kind. -/
structure DeriveInputModel where
  lifetimeParams : Nat
  otherParams : Nat
  hasWhereClause : Bool
  kind : DataKind
deriving DecidableEq, Repr

/-- The input validation of `derive_bundle` (lines 31–43): reject inputs
with any generic parameter (`!input.generics.params.is_empty()`), then any
non-struct input; `none` means no `compile_error!` is emitted and the
implementations are generated. -/
def bundleInputError (i : DeriveInputModel) : Option String :=
  if i.lifetimeParams + i.otherParams ≠ 0 then
    some "derive(Bundle) does not support generics"
  else
    match i.kind with
    | .structData => none
    | _ => some "derive(Bundle) only supports structs"

/-- The input validation of `derive_query` (lines 112–135): require exactly
one lifetime parameter, then no `where` clause, then a struct; `none` means
no `compile_error!` is emitted. -/
def queryInputError (i : DeriveInputModel) : Option String :=
  if i.lifetimeParams ≠ 1 then
    some "derive(Query) must be applied to structs with exactly one unbounded lifetime parameter"
  else if i.hasWhereClause then
    some "derive(Query) does not support where clauses"
  else
    match i.kind with
    | .structData => none
    | _ => some "derive(Query) only supports structs"

/-! ## Helper lemmas -/

theorem findDup_eq_none_iff (seen : List Nat) (tys : List TypeDescriptor) :
    findDup seen tys = none ↔
      (tys.map TypeDescriptor.id).Nodup ∧ ∀ t ∈ tys, t.id ∉ seen := by
  induction tys generalizing seen with
  | nil => simp [findDup]
  | cons t rest ih =>
    rw [findDup]
    by_cases h : t.id ∈ seen
    · rw [if_pos h]
      constructor
      · intro hc; exact absurd hc (by simp)
      · rintro ⟨-, hall⟩
        exact absurd h (hall t (List.mem_cons_self t rest))
    · rw [if_neg h, ih]
      simp only [List.map_cons, List.nodup_cons]
      constructor
      · rintro ⟨hnd, hall⟩
        refine ⟨⟨?_, hnd⟩, ?_⟩
        · intro hmem
          rcases List.mem_map.mp hmem with ⟨u, hu, he⟩
          exact hall u hu (by rw [he]; exact List.mem_cons_self _ _)
        · intro u hu
          rcases List.mem_cons.mp hu with rfl | hu'
          · exact h
          · intro hus
            exact hall u hu' (List.mem_cons_of_mem _ hus)
      · rintro ⟨⟨hnotin, hnd⟩, hall⟩
        refine ⟨hnd, ?_⟩
        intro u hu hmem
        rcases List.mem_cons.mp hmem with he | hus
        · exact hnotin (List.mem_map.mpr ⟨u, hu, he⟩)
        · exact hall u (List.mem_cons_of_mem _ hu) hus

theorem findDup_eq_some (seen : List Nat) (tys : List TypeDescriptor)
    (t : TypeDescriptor) (h : findDup seen tys = some t) :
    t ∈ tys ∧ (t.id ∈ seen ∨ 2 ≤ (tys.map TypeDescriptor.id).count t.id) := by
  induction tys generalizing seen with
  | nil => simp [findDup] at h
  | cons u rest ih =>
    rw [findDup] at h
    by_cases hm : u.id ∈ seen
    · rw [if_pos hm] at h
      cases h
      exact ⟨List.mem_cons_self _ _, Or.inl hm⟩
    · rw [if_neg hm] at h
      rcases ih _ h with ⟨hmem, hcase⟩
      refine ⟨List.mem_cons_of_mem _ hmem, ?_⟩
      have hcnt : ((u :: rest).map TypeDescriptor.id).count t.id =
          (rest.map TypeDescriptor.id).count t.id
            + if u.id = t.id then 1 else 0 := by
        simp [List.count_cons]
      rcases hcase with hin | hc
      · rcases List.mem_cons.mp hin with he | hs
        · right
          have h1 : t.id ∈ rest.map TypeDescriptor.id :=
            List.mem_map.mpr ⟨t, hmem, rfl⟩
          have h2 : 0 < (rest.map TypeDescriptor.id).count t.id :=
            List.count_pos_iff.mpr h1
          rw [hcnt, if_pos he.symm]
          omega
        · exact Or.inl hs
      · right
        rw [hcnt]
        omega

theorem canonicalize_perm {l1 l2 : List TypeDescriptor} (h : l1.Perm l2) :
    canonicalize l1 = canonicalize l2 := by
  unfold canonicalize
  have hp : ((l1.map bundleKey).insertionSort keyLE).Perm
      ((l2.map bundleKey).insertionSort keyLE) :=
    (List.perm_insertionSort keyLE _).trans
      ((h.map bundleKey).trans (List.perm_insertionSort keyLE _).symm)
  rw [List.eq_of_perm_of_sorted hp (List.sorted_insertionSort keyLE _)
    (List.sorted_insertionSort keyLE _)]

theorem elements_eq_ok (bundle : String) (tys : List TypeDescriptor)
    (hnd : (tys.map TypeDescriptor.id).Nodup) :
    elements bundle tys = .ok (canonicalize tys) := by
  have h : findDup [] tys = none :=
    (findDup_eq_none_iff [] tys).mpr ⟨hnd, by simp⟩
  rw [elements, h]

/-! ## Claim theorems -/

/-- C1: for every multiset of component types, the signature produced by
the generated `elements()` is identical for all field-declaration orders:
two duplicate-free bundle declarations whose declared type lists are
permutations of each other yield the same ordered identity sequence. -/
theorem C1_signature_order_independent (b1 b2 : String)
    {l1 l2 : List TypeDescriptor} (hperm : l1.Perm l2)
    (hnd : (l1.map TypeDescriptor.id).Nodup) :
    ∃ s, elements b1 l1 = .ok s ∧ elements b2 l2 = .ok s := by
  have hnd2 : (l2.map TypeDescriptor.id).Nodup :=
    (hperm.map TypeDescriptor.id).nodup_iff.mp hnd
  exact ⟨canonicalize l1, elements_eq_ok b1 l1 hnd,
    by rw [elements_eq_ok b2 l2 hnd2, canonicalize_perm hperm]⟩

/-- C1 witness: two declaration orders of the set {A, B} produce the same
signature. -/
theorem C1_witness :
    ∃ s, elements "M1" [⟨1, 4, "A"⟩, ⟨2, 8, "B"⟩] = .ok s ∧
      elements "M2" [⟨2, 8, "B"⟩, ⟨1, 4, "A"⟩] = .ok s :=
  C1_signature_order_independent "M1" "M2" (by decide) (by decide)

/-- C2: a bundle declaration whose fields repeat a component type identity
fails with an error built from the bundle name and the offending type's
name, and no signature is produced; a bundle with all-distinct field types
succeeds. -/
theorem C2_duplicate_detection (bundle : String) (tys : List TypeDescriptor) :
    ((tys.map TypeDescriptor.id).Nodup →
      elements bundle tys = .ok (canonicalize tys)) ∧
    (¬ (tys.map TypeDescriptor.id).Nodup →
      ∃ t, t ∈ tys ∧ 2 ≤ (tys.map TypeDescriptor.id).count t.id ∧
        elements bundle tys = .error (dupMessage bundle t.name)) := by
  constructor
  · exact elements_eq_ok bundle tys
  · intro hnd
    cases hfd : findDup [] tys with
    | none => exact absurd ((findDup_eq_none_iff [] tys).mp hfd).1 hnd
    | some t =>
      rcases findDup_eq_some [] tys t hfd with ⟨hmem, hcase⟩
      rcases hcase with hin | hcnt
      · simp at hin
      · exact ⟨t, hmem, hcnt, by rw [elements, hfd]⟩

/-- C2 witness: a bundle with two fields of the same type fails with the
error naming the bundle and the type; its duplicate-free sibling
succeeds. -/
theorem C2_witness :
    (elements "Good" [⟨1, 4, "A"⟩, ⟨2, 4, "B"⟩] =
      .ok (canonicalize [⟨1, 4, "A"⟩, ⟨2, 4, "B"⟩])) ∧
    ∃ t, t ∈ [(⟨1, 4, "A"⟩ : TypeDescriptor), ⟨1, 4, "A"⟩] ∧
      2 ≤ (([(⟨1, 4, "A"⟩ : TypeDescriptor), ⟨1, 4, "A"⟩]).map
        TypeDescriptor.id).count t.id ∧
      elements "Bad" [⟨1, 4, "A"⟩, ⟨1, 4, "A"⟩] =
        .error (dupMessage "Bad" t.name) :=
  ⟨(C2_duplicate_detection "Good" [⟨1, 4, "A"⟩, ⟨2, 4, "B"⟩]).1 (by decide),
   (C2_duplicate_detection "Bad" [⟨1, 4, "A"⟩, ⟨1, 4, "A"⟩]).2 (by decide)⟩

/-- C3: on a duplicate-free bundle the output of `elements()` is exactly
the declared types' `(alignment, identity)` pairs sorted by decreasing
alignment with ascending-identity tie-break, projected to identities. -/
theorem C3_sorted_by_alignment_then_id (bundle : String)
    (tys : List TypeDescriptor)
    (hnd : (tys.map TypeDescriptor.id).Nodup) :
    ∃ p : List (Nat × Nat), p.Perm (tys.map bundleKey) ∧
      p.Sorted keyLE ∧ elements bundle tys = .ok (p.map Prod.snd) :=
  ⟨(tys.map bundleKey).insertionSort keyLE,
    List.perm_insertionSort keyLE _, List.sorted_insertionSort keyLE _,
    elements_eq_ok bundle tys hnd⟩

theorem compositeGet_none_iff {A S : Type} (a : A) :
    ∀ subs : List (A → Option S),
      compositeGet subs a = none ↔ ∃ f ∈ subs, f a = none := by
  intro subs
  induction subs with
  | nil => simp [compositeGet]
  | cons f rest ih =>
    cases hfa : f a with
    | none => simp [compositeGet, hfa]
    | some s =>
      cases hrec : compositeGet rest a with
      | none =>
        simp only [compositeGet, hfa, hrec]
        constructor
        · intro _
          rcases ih.mp hrec with ⟨g, hg, hga⟩
          exact ⟨g, List.mem_cons_of_mem _ hg, hga⟩
        · intro _; trivial
      | some ss =>
        simp only [compositeGet, hfa, hrec]
        constructor
        · intro hc; exact absurd hc (by simp)
        · rintro ⟨g, hg, hga⟩
          rcases List.mem_cons.mp hg with rfl | hg'
          · rw [hfa] at hga; cases hga
          · have hcontra := ih.mpr ⟨g, hg', hga⟩
            rw [hrec] at hcontra; cases hcontra

theorem compositeGet_some_of_map {A S : Type} (a : A) :
    ∀ (subs : List (A → Option S)) (ss : List S),
      subs.map (fun f => f a) = ss.map some →
      compositeGet subs a = some ss := by
  intro subs
  induction subs with
  | nil =>
    intro ss h
    cases ss with
    | nil => rfl
    | cons s t => simp at h
  | cons f rest ih =>
    intro ss h
    cases ss with
    | nil => simp at h
    | cons s t =>
      simp only [List.map_cons, List.cons.injEq] at h
      simp [compositeGet, h.1, ih t h.2]

theorem compositeGet_map_of_some {A S : Type} (a : A) :
    ∀ (subs : List (A → Option S)) (ss : List S),
      compositeGet subs a = some ss →
      subs.map (fun f => f a) = ss.map some := by
  intro subs
  induction subs with
  | nil =>
    intro ss h
    simp [compositeGet] at h
    simp [← h]
  | cons f rest ih =>
    intro ss h
    cases hfa : f a with
    | none =>
      simp only [compositeGet, hfa] at h
      cases h
    | some s =>
      cases hrec : compositeGet rest a with
      | none =>
        simp only [compositeGet, hfa, hrec] at h
        cases h
      | some ss' =>
        simp only [compositeGet, hfa, hrec, Option.some.injEq] at h
        subst h
        simp [hfa, ih ss' hrec]

theorem compositeGet_append_none {A S : Type} (a : A)
    (f : A → Option S) (hf : f a = none) :
    ∀ (pre post post' : List (A → Option S)),
      compositeGet (pre ++ f :: post) a = none ∧
      compositeGet (pre ++ f :: post) a =
        compositeGet (pre ++ f :: post') a := by
  intro pre
  induction pre with
  | nil =>
    intro post post'
    simp [compositeGet, hf]
  | cons g rest ih =>
    intro post post'
    rcases ih post post' with ⟨h1, h2⟩
    have h1' : compositeGet (rest ++ f :: post') a = none := by
      rw [← h2]; exact h1
    cases hga : g a with
    | none => simp [compositeGet, hga]
    | some s =>
      constructor
      · simp [compositeGet, hga, h1]
      · simp [compositeGet, hga, h1, h1']

/-- C4: the composite `get` fails exactly when some field's sub-fetch
fails; it returns the state list collecting every field's sub-state, in
declared order, exactly when every sub-fetch succeeds; and the first
failing field already determines the result regardless of the fields
declared after it (short-circuit). -/
theorem C4_composite_get_conjunctive {A S : Type}
    (subs : List (A → Option S)) (a : A) :
    (compositeGet subs a = none ↔ ∃ f ∈ subs, f a = none) ∧
    (∀ ss : List S, compositeGet subs a = some ss ↔
      subs.map (fun f => f a) = ss.map some) ∧
    (∀ (pre post post' : List (A → Option S)) (f : A → Option S),
      f a = none →
      compositeGet (pre ++ f :: post) a = none ∧
      compositeGet (pre ++ f :: post) a =
        compositeGet (pre ++ f :: post') a) :=
  ⟨compositeGet_none_iff a subs,
   fun ss => ⟨compositeGet_map_of_some a subs ss,
     compositeGet_some_of_map a subs ss⟩,
   fun pre post post' f hf => compositeGet_append_none a f hf pre post post'⟩

/-- C4 witness: a two-field query whose second sub-fetch fails against the
archetype yields no match. -/
theorem C4_witness :
    compositeGet [fun _ : Nat => some 7, fun _ : Nat => (none : Option Nat)]
      0 = none :=
  ((C4_composite_get_conjunctive
      [fun _ : Nat => some 7, fun _ : Nat => (none : Option Nat)] 0).1).mpr
    ⟨fun _ => none, List.mem_cons_of_mem _ (List.mem_cons_self _ _), rfl⟩

/-- C5: one call of the composite `next` advances each sub-fetch exactly
once (cursor moved forward by one, stream untouched, no bounds check) and
assembles the per-field items, field by field in declared order, from each
sub-fetch's current cursor. -/
theorem C5_composite_next (I : Type) (ss : List (SubFetch I)) :
    compositeNext ss =
      (ss.map fun s => s.stream s.pos,
       ss.map fun s => ⟨s.stream, s.pos + 1⟩) := by
  induction ss with
  | nil => rfl
  | cons s rest ih => simp [compositeNext, SubFetch.next, ih]

/-- C6: the generated `borrow` emits exactly one per-type borrow per field,
in declared order, with the field's declared access mode; `release`
likewise, in the same declared order as `borrow` (not its reverse). -/
theorem C6_borrow_release_order (fs : List QueryField) :
    compositeBorrow fs =
      fs.map (fun f => BorrowOp.acquire f.ty f.mode) ∧
    compositeRelease fs =
      fs.map (fun f => BorrowOp.release f.ty f.mode) ∧
    (compositeRelease fs).map BorrowOp.field =
      (compositeBorrow fs).map BorrowOp.field ∧
    (compositeBorrow fs).length = fs.length ∧
    (compositeRelease fs).length = fs.length := by
  refine ⟨?_, ?_, ?_, ?_, ?_⟩ <;>
    induction fs with
    | nil => rfl
    | cons f rest ih =>
      simp [compositeBorrow, compositeRelease, BorrowOp.field, ih]

/-- C5 witness: a concrete two-field composite next advances both cursors
by one and reads both items at the old cursors. -/
theorem C5_witness :
    compositeNext [(⟨fun n => n, 0⟩ : SubFetch Nat), ⟨fun n => n + 10, 5⟩] =
      ([0, 15], [⟨fun n => n, 1⟩, ⟨fun n => n + 10, 6⟩]) := by
  rw [C5_composite_next]
  simp

/-- C6 witness: a two-field query borrows and releases each field once, in
the same declared order. -/
theorem C6_witness :
    compositeBorrow [⟨1, AccessMode.shared⟩, ⟨2, AccessMode.exclusive⟩] =
      [BorrowOp.acquire 1 AccessMode.shared,
       BorrowOp.acquire 2 AccessMode.exclusive] ∧
    compositeRelease [⟨1, AccessMode.shared⟩, ⟨2, AccessMode.exclusive⟩] =
      [BorrowOp.release 1 AccessMode.shared,
       BorrowOp.release 2 AccessMode.exclusive] :=
  ⟨(C6_borrow_release_order
      [⟨1, AccessMode.shared⟩, ⟨2, AccessMode.exclusive⟩]).1,
   (C6_borrow_release_order
      [⟨1, AccessMode.shared⟩, ⟨2, AccessMode.exclusive⟩]).2.1⟩

/-- C7: `get_archetype` tries signature lookup first — on a hit it returns
the found id and performs no allocation (the table is unchanged) — and
allocates only on a miss, passing a descriptor list that is a permutation
of the declared fields' descriptors (complete) with no duplicate type
identity among them. -/
theorem C7_get_archetype_lookup_first (bundle : String)
    (tys : List TypeDescriptor) (t : ArchetypeTable)
    (hnd : (tys.map TypeDescriptor.id).Nodup) :
    (∀ id, t.lookup (canonicalize tys) = some id →
      get_archetype bundle tys t = .ok (id, t)) ∧
    (t.lookup (canonicalize tys) = none →
      ∃ info, info.Perm tys ∧ (info.map TypeDescriptor.id).Nodup ∧
        get_archetype bundle tys t =
          .ok (t.nextId,
            { lookup := t.lookup, nextId := t.nextId + 1,
              allocLog := t.allocLog ++ [info] })) := by
  constructor
  · intro id hl
    simp [get_archetype, elements_eq_ok bundle tys hnd, hl, bind, Except.bind]
  · intro hl
    refine ⟨tys.insertionSort infoLE, List.perm_insertionSort infoLE tys,
      ((List.perm_insertionSort infoLE tys).map TypeDescriptor.id).nodup_iff.mpr
        hnd, ?_⟩
    simp [get_archetype, elements_eq_ok bundle tys hnd, hl,
      ArchetypeTable.alloc, bind, Except.bind]

/-- C7 witness: against an empty table the lookup misses and one allocation
with the complete, duplicate-free descriptor set is performed. -/
theorem C7_witness :
    ∃ info, info.Perm [(⟨1, 4, "A"⟩ : TypeDescriptor), ⟨2, 8, "B"⟩] ∧
      (info.map TypeDescriptor.id).Nodup ∧
      get_archetype "M" [⟨1, 4, "A"⟩, ⟨2, 8, "B"⟩]
          ⟨fun _ => none, 0, []⟩ =
        .ok (0, { lookup := fun _ => none, nextId := 1,
                  allocLog := [] ++ [info] }) :=
  (C7_get_archetype_lookup_first "M" [⟨1, 4, "A"⟩, ⟨2, 8, "B"⟩]
    ⟨fun _ => none, 0, []⟩ (by decide)).2 rfl

theorem store_unchanged {V : Type} (index : Nat) :
    ∀ (fields : List (Nat × V)) (arch : Storage V) (ty j : Nat),
      (ty ∉ fields.map Prod.fst ∨ j ≠ index) →
      store fields arch index ty j = arch ty j := by
  intro fields
  induction fields with
  | nil => intro arch ty j _; rfl
  | cons f rest ih =>
    intro arch ty j h
    have hrest : ty ∉ rest.map Prod.fst ∨ j ≠ index := by
      rcases h with h | h
      · exact Or.inl fun hm => h (List.mem_cons_of_mem _ hm)
      · exact Or.inr h
    rw [store, ih _ ty j hrest]
    rcases h with h | h
    · have hne : ty ≠ f.1 := fun he =>
        h (he ▸ List.mem_cons_self f.1 (rest.map Prod.fst))
      simp [put, hne]
    · simp [put, h]

theorem store_mem {V : Type} (index : Nat) :
    ∀ (fields : List (Nat × V)) (arch : Storage V) (ty : Nat) (v : V),
      (fields.map Prod.fst).Nodup → (ty, v) ∈ fields →
      store fields arch index ty index = some v := by
  intro fields
  induction fields with
  | nil => intro arch ty v _ hm; simp at hm
  | cons f rest ih =>
    intro arch ty v hnd hm
    simp only [List.map_cons, List.nodup_cons] at hnd
    rcases List.mem_cons.mp hm with he | hm'
    · have hty : ty = f.1 := by rw [← he]
      have hv : v = f.2 := by rw [← he]
      rw [store, store_unchanged index rest _ ty index
        (Or.inl (hty ▸ hnd.1))]
      simp [put, hty, hv]
    · rw [store]
      exact ih _ ty v hnd.2 hm'

/-- C8: writing a duplicate-free bundle at a slot stores every declared
field's value in that field's component column at the given index (the
round trip reads back the exact value), leaves every other column/slot
untouched, and the resulting storage is independent of the field write
order. -/
theorem C8_store_fields (V : Type) (fields : List (Nat × V))
    (arch : Storage V) (index : Nat)
    (hnd : (fields.map Prod.fst).Nodup) :
    (∀ ty v, (ty, v) ∈ fields → store fields arch index ty index = some v) ∧
    (∀ ty j, (ty ∉ fields.map Prod.fst ∨ j ≠ index) →
      store fields arch index ty j = arch ty j) ∧
    (∀ fields' : List (Nat × V), fields.Perm fields' →
      store fields arch index = store fields' arch index) := by
  refine ⟨fun ty v hm => store_mem index fields arch ty v hnd hm,
    fun ty j h => store_unchanged index fields arch ty j h, ?_⟩
  intro fields' hperm
  have hnd' : (fields'.map Prod.fst).Nodup :=
    ((hperm.map Prod.fst).nodup_iff).mp hnd
  funext ty j
  by_cases hj : j = index
  · subst hj
    by_cases hty : ty ∈ fields.map Prod.fst
    · rcases List.mem_map.mp hty with ⟨p, hp, hfst⟩
      have hpair : (ty, p.2) ∈ fields := by
        have hp2 : p = (ty, p.2) := by rw [← hfst]
        rw [← hp2]
        exact hp
      rw [store_mem j fields arch ty p.2 hnd hpair,
        store_mem j fields' arch ty p.2 hnd' (hperm.mem_iff.mp hpair)]
    · have hty' : ty ∉ fields'.map Prod.fst := fun hm =>
        hty ((hperm.map Prod.fst).mem_iff.mpr hm)
      rw [store_unchanged j fields arch ty j (Or.inl hty),
        store_unchanged j fields' arch ty j (Or.inl hty')]
  · rw [store_unchanged index fields arch ty j (Or.inr hj),
      store_unchanged index fields' arch ty j (Or.inr hj)]

/-- C8 witness: storing the bundle {type 1 ↦ 10, type 2 ↦ 20} at slot 3 in
empty storage reads back 10 from column 1, and reversing the field order
yields the identical storage. -/
theorem C8_witness :
    store [(1, 10), (2, 20)] (fun _ _ => (none : Option Nat)) 3 1 3 =
        some 10 ∧
    store [(1, 10), (2, 20)] (fun _ _ => (none : Option Nat)) 3 =
      store [(2, 20), (1, 10)] (fun _ _ => (none : Option Nat)) 3 :=
  ⟨(C8_store_fields Nat [(1, 10), (2, 20)] (fun _ _ => none) 3
      (by decide)).1 1 10 (by simp),
   (C8_store_fields Nat [(1, 10), (2, 20)] (fun _ _ => none) 3
      (by decide)).2.2 [(2, 20), (1, 10)] (by decide)⟩

/-- C9: for a duplicate-free bundle the first call computes and caches the
signature, running the initializer exactly once; every later call returns
the cached, byte-identical sequence without touching the initializer, so
two (or more) calls agree and the computation runs at most once. -/
theorem C9_signature_cached_once (bundle : String)
    (tys : List TypeDescriptor)
    (hnd : (tys.map TypeDescriptor.id).Nodup) :
    elementsCall bundle tys freshLazy =
      (.ok (canonicalize tys), ⟨some (canonicalize tys), 1⟩) ∧
    (∀ st s, st.cached = some s → elementsCall bundle tys st = (.ok s, st)) ∧
    elementsCall bundle tys (elementsCall bundle tys freshLazy).2 =
      elementsCall bundle tys freshLazy ∧
    ((elementsCall bundle tys (elementsCall bundle tys freshLazy).2).2).initCount
      = 1 := by
  have hfirst : elementsCall bundle tys freshLazy =
      (.ok (canonicalize tys), ⟨some (canonicalize tys), 1⟩) := by
    simp [elementsCall, freshLazy, elements_eq_ok bundle tys hnd]
  have hcached : ∀ (st : LazyState) (s : List Nat), st.cached = some s →
      elementsCall bundle tys st = (.ok s, st) := by
    intro st s hc
    rw [elementsCall, hc]
  refine ⟨hfirst, hcached, ?_, ?_⟩
  · rw [hfirst]
    exact hcached ⟨some (canonicalize tys), 1⟩ (canonicalize tys) rfl
  · rw [hfirst]
    rw [hcached ⟨some (canonicalize tys), 1⟩ (canonicalize tys) rfl]

/-- C9 witness: two consecutive calls on the one-type bundle return the
identical signature and the initializer count stays at one. -/
theorem C9_witness :
    elementsCall "M" [⟨1, 4, "A"⟩] freshLazy =
      (.ok (canonicalize [⟨1, 4, "A"⟩]),
        ⟨some (canonicalize [⟨1, 4, "A"⟩]), 1⟩) ∧
    elementsCall "M" [⟨1, 4, "A"⟩]
        (elementsCall "M" [⟨1, 4, "A"⟩] freshLazy).2 =
      elementsCall "M" [⟨1, 4, "A"⟩] freshLazy ∧
    ((elementsCall "M" [⟨1, 4, "A"⟩]
        (elementsCall "M" [⟨1, 4, "A"⟩] freshLazy).2).2).initCount = 1 := by
  have h := C9_signature_cached_once "M" [⟨1, 4, "A"⟩] (by decide)
  exact ⟨h.1, h.2.2.1, h.2.2.2⟩

/-- C10: `derive(Bundle)` emits no error exactly for non-generic struct
inputs, and `derive(Query)` emits no error exactly for struct inputs with
exactly one lifetime parameter and no `where` clause; every other input is
rejected with a `compile_error!`. -/
theorem C10_derive_input_validation (i : DeriveInputModel) :
    (bundleInputError i = none ↔
      (i.lifetimeParams + i.otherParams = 0 ∧
        i.kind = DataKind.structData)) ∧
    (queryInputError i = none ↔
      (i.lifetimeParams = 1 ∧ i.hasWhereClause = false ∧
        i.kind = DataKind.structData)) := by
  obtain ⟨lp, op, hw, k⟩ := i
  constructor
  · by_cases hg : lp + op ≠ 0
    · rw [bundleInputError, if_pos hg]
      constructor
      · intro hc; cases hc
      · rintro ⟨h1, -⟩; exact absurd h1 hg
    · rw [bundleInputError, if_neg hg]
      push_neg at hg
      cases k <;> simp [hg]
  · by_cases hl : lp ≠ 1
    · rw [queryInputError, if_pos hl]
      constructor
      · intro hc; cases hc
      · rintro ⟨h1, -⟩; exact absurd h1 hl
    · push_neg at hl
      rw [queryInputError, if_neg (by simp [hl])]
      cases hw <;> cases k <;> simp [hl]

/-- C10 witness: a plain struct with no generics passes `derive(Bundle)`,
a one-lifetime struct passes `derive(Query)`, and an enum fails both. -/
theorem C10_witness :
    bundleInputError ⟨0, 0, false, DataKind.structData⟩ = none ∧
    queryInputError ⟨1, 0, false, DataKind.structData⟩ = none ∧
    bundleInputError ⟨0, 0, false, DataKind.enumData⟩ ≠ none ∧
    queryInputError ⟨1, 0, false, DataKind.enumData⟩ ≠ none := by
  refine ⟨(C10_derive_input_validation
      ⟨0, 0, false, DataKind.structData⟩).1.mpr ⟨rfl, rfl⟩,
    (C10_derive_input_validation
      ⟨1, 0, false, DataKind.structData⟩).2.mpr ⟨rfl, rfl, rfl⟩, ?_, ?_⟩
  · intro h
    cases ((C10_derive_input_validation
      ⟨0, 0, false, DataKind.enumData⟩).1.mp h).2
  · intro h
    cases ((C10_derive_input_validation
      ⟨1, 0, false, DataKind.enumData⟩).2.mp h).2.2

/-- C3 witness: a concrete three-type bundle is emitted in sorted order. -/
theorem C3_witness :
    ∃ p : List (Nat × Nat),
      p.Perm (([⟨5, 4, "A"⟩, ⟨3, 8, "B"⟩, ⟨4, 8, "C"⟩] :
        List TypeDescriptor).map bundleKey) ∧
      p.Sorted keyLE ∧
      elements "M" [⟨5, 4, "A"⟩, ⟨3, 8, "B"⟩, ⟨4, 8, "C"⟩] =
        .ok (p.map Prod.snd) :=
  C3_sorted_by_alignment_then_id "M" [⟨5, 4, "A"⟩, ⟨3, 8, "B"⟩, ⟨4, 8, "C"⟩]
    (by decide)

end Hecs
